import Mathlib

/-!
Shallow embedding of the `Frame` class of `src/frame.h` (BasicViewer /
libQGLViewer-style hierarchical coordinate frame used by Easy3D).

A `Frame` stores a local translation `t_` and a local rotation quaternion
`q_` relative to an optional reference frame, plus a nullable constraint
and a set of observers.  The header gives inline bodies for
`setTranslation`, `setRotation`, `translation`, `rotation`,
`referenceFrame`, `constraint`, `setConstraint`, `worldInverse`,
`addObserver` and `removeObserver`; the remaining member functions are
only declared there, so they are modelled from the specification (their
doc comments say so explicitly).

Real-number quantities are modelled with exact rational arithmetic (ℚ),
the usual idealization of the `double` computations of the source.
-/

/-- The 3D vector type `vec3` of `math_types.h`, modelled over ℚ. -/
structure Vec3 where
  x : ℚ
  y : ℚ
  z : ℚ
deriving DecidableEq

instance : Add Vec3 := ⟨fun a b => ⟨a.x + b.x, a.y + b.y, a.z + b.z⟩⟩
instance : Sub Vec3 := ⟨fun a b => ⟨a.x - b.x, a.y - b.y, a.z - b.z⟩⟩
instance : Neg Vec3 := ⟨fun a => ⟨-a.x, -a.y, -a.z⟩⟩
instance : Zero Vec3 := ⟨⟨0, 0, 0⟩⟩
instance : SMul ℚ Vec3 := ⟨fun a v => ⟨a * v.x, a * v.y, a * v.z⟩⟩

/-- Squared Euclidean length of a 3D vector.  The Euclidean length itself
is `Real.sqrt` of this quantity (stated inline in the theorems, so that
every definition stays executable). -/
def vecNormSq (v : Vec3) : ℚ := v.x * v.x + v.y * v.y + v.z * v.z

/-- Modelled from the spec: the quaternion type `quat` of `math_types.h`
(not under `src/`), with scalar part `w` and vector part `(x, y, z)`,
over ℚ. -/
structure Quat where
  w : ℚ
  x : ℚ
  y : ℚ
  z : ℚ
deriving DecidableEq

/-- Hamilton product of two quaternions. -/
def qmul (p q : Quat) : Quat :=
  ⟨p.w * q.w - p.x * q.x - p.y * q.y - p.z * q.z,
   p.w * q.x + p.x * q.w + p.y * q.z - p.z * q.y,
   p.w * q.y - p.x * q.z + p.y * q.w + p.z * q.x,
   p.w * q.z + p.x * q.y - p.y * q.x + p.z * q.w⟩

/-- Quaternion conjugate. -/
def qconj (q : Quat) : Quat := ⟨q.w, -q.x, -q.y, -q.z⟩

/-- Squared norm of a quaternion. -/
def qnormSq (q : Quat) : ℚ := q.w * q.w + q.x * q.x + q.y * q.y + q.z * q.z

/-- The identity quaternion. -/
def qone : Quat := ⟨1, 0, 0, 0⟩

/-- Modelled from the spec: `quat::inverse()` of `math_types.h` — the
multiplicative inverse, conjugate divided by the squared norm (equal to
the conjugate on unit quaternions). -/
def qinv (q : Quat) : Quat :=
  ⟨q.w / qnormSq q, -q.x / qnormSq q, -q.y / qnormSq q, -q.z / qnormSq q⟩

/-- A 3D vector embedded as a pure quaternion. -/
def pureQ (v : Vec3) : Quat := ⟨0, v.x, v.y, v.z⟩

/-- The vector part of a quaternion. -/
def vecPart (q : Quat) : Vec3 := ⟨q.x, q.y, q.z⟩

/-- The sandwich `q v q̄` (no normalization). -/
def rotateRaw (q : Quat) (v : Vec3) : Vec3 :=
  vecPart (qmul (qmul q (pureQ v)) (qconj q))

/-- The sandwich `q̄ v q` (no normalization). -/
def invRotateRaw (q : Quat) (v : Vec3) : Vec3 :=
  vecPart (qmul (qmul (qconj q) (pureQ v)) q)

/-- Modelled from the spec: `quat::rotate(v)` of `math_types.h` — the image
of `v` under the rotation represented by `q`, the sandwich `q v q⁻¹`
(`q v q̄` divided by the squared norm). -/
def rotate (q : Quat) (v : Vec3) : Vec3 :=
  (qnormSq q)⁻¹ • rotateRaw q v

/-- Modelled from the spec: `quat::inverse_rotate(v)` of `math_types.h` —
the image of `v` under the inverse rotation, the sandwich `q⁻¹ v q`. -/
def inverse_rotate (q : Quat) (v : Vec3) : Vec3 :=
  (qnormSq q)⁻¹ • invRotateRaw q v

namespace Frame

/-- The local data of one `Frame`: its translation `t_` and rotation `q_`
with respect to its reference frame. -/
structure FrameData where
  t : Vec3
  q : Quat
deriving DecidableEq

/-- A frame together with its chain of reference frames, listed from the
frame itself up to the root.  The empty chain stands for the world
coordinate system (a `NULL` frame argument in the source). -/
abbrev FrameChain := List FrameData

/-- All rotations along a chain are invertible (non-degenerate).  This
holds in particular for unit quaternions, the documented invariant. -/
def chainOk (c : FrameChain) : Prop := ∀ f ∈ c, qnormSq f.q ≠ 0

instance (c : FrameChain) : Decidable (chainOk c) := by
  unfold chainOk
  infer_instance

/-- Modelled from the spec: `Frame::localCoordinatesOf(src)` — converts
`src` from the reference frame's coordinate system to the frame's local
one (body not under `src/`; the frame maps a local point `p` to
`t + R p` in its parent, so the inverse applies `R⁻¹ (src - t)`). -/
def localCoordinatesOf (f : FrameData) (src : Vec3) : Vec3 :=
  inverse_rotate f.q (src - f.t)

/-- Modelled from the spec: `Frame::localInverseCoordinatesOf(src)` —
converts `src` from the frame's local coordinate system to its reference
frame's one: `R src + t` (body not under `src/`). -/
def localInverseCoordinatesOf (f : FrameData) (src : Vec3) : Vec3 :=
  rotate f.q src + f.t

/-- Modelled from the spec: `Frame::coordinatesOf(src)` — converts the
world point `src` into this frame's coordinate system, recursing through
the reference-frame chain (body not under `src/`). -/
def coordinatesOf : FrameChain → Vec3 → Vec3
  | [], src => src
  | f :: rest, src => localCoordinatesOf f (coordinatesOf rest src)

/-- Modelled from the spec: `Frame::inverseCoordinatesOf(src)` — converts
the local point `src` into world coordinates, recursing through the
reference-frame chain (body not under `src/`). -/
def inverseCoordinatesOf : FrameChain → Vec3 → Vec3
  | [], src => src
  | f :: rest, src => inverseCoordinatesOf rest (localInverseCoordinatesOf f src)

/-- Modelled from the spec: `Frame::localTransformOf(src)` — the vector
variant of `localCoordinatesOf`: rotation only, translation ignored. -/
def localTransformOf (f : FrameData) (src : Vec3) : Vec3 :=
  inverse_rotate f.q src

/-- Modelled from the spec: `Frame::localInverseTransformOf(src)` — the
vector variant of `localInverseCoordinatesOf`. -/
def localInverseTransformOf (f : FrameData) (src : Vec3) : Vec3 :=
  rotate f.q src

/-- Modelled from the spec: `Frame::transformOf(src)` — converts the world
vector `src` into this frame's coordinate system, rotation only. -/
def transformOf : FrameChain → Vec3 → Vec3
  | [], src => src
  | f :: rest, src => localTransformOf f (transformOf rest src)

/-- Modelled from the spec: `Frame::inverseTransformOf(src)` — converts
the local vector `src` into world coordinates, rotation only. -/
def inverseTransformOf : FrameChain → Vec3 → Vec3
  | [], src => src
  | f :: rest, src => inverseTransformOf rest (localInverseTransformOf f src)

/-- Modelled from the spec: `Frame::coordinatesOfFrom(src, from)` — this
frame's coordinates of the point whose coordinates in `other` are `src`,
composing through world space (body not under `src/`). -/
def coordinatesOfFrom (c other : FrameChain) (src : Vec3) : Vec3 :=
  coordinatesOf c (inverseCoordinatesOf other src)

/-- Modelled from the spec: `Frame::coordinatesOfIn(src, in)` — the
coordinates in `other` of the point whose coordinates in this frame are
`src`, composing through world space (body not under `src/`). -/
def coordinatesOfIn (c other : FrameChain) (src : Vec3) : Vec3 :=
  coordinatesOf other (inverseCoordinatesOf c src)

/-- Modelled from the spec: `Frame::position()` — the world position,
derived by composing the local translation up the reference-frame chain
(the world coordinates of the local origin; body not under `src/`). -/
def position (c : FrameChain) : Vec3 := inverseCoordinatesOf c 0

/-- Modelled from the spec: `Frame::orientation()` — the world
orientation: the parent's world orientation composed (multiplied) with
the frame's local rotation (body not under `src/`). -/
def orientation : FrameChain → Quat
  | [] => qone
  | f :: rest => qmul (orientation rest) f.q

/-- The mutable state of a `Frame` object, together with an observable
log of its notification passes.  `constraint_` is the opaque
translation-filter capability of the attached `Constraint`
(`constraint.h` is not under `src/`; the spec models it as "given a
proposed translation delta, return a filtered delta").  Observers are
identified by natural numbers; `log` records, most recent first, the set
of observers notified by each completed notification pass. -/
structure FrameS where
  t_ : Vec3
  q_ : Quat
  referenceFrame_ : Option Nat
  constraint_ : Option (Vec3 → Vec3)
  observers_ : Finset Nat
  log : List (Finset Nat)

/-- `Frame::translation()`: returns the local translation `t_`. -/
def translation (f : FrameS) : Vec3 := f.t_

/-- `Frame::rotation()`: returns the local rotation `q_`. -/
def rotation (f : FrameS) : Quat := f.q_

/-- `Frame::referenceFrame()`: returns the reference-frame pointer. -/
def referenceFrame (f : FrameS) : Option Nat := f.referenceFrame_

/-- Modelled from the spec: `Frame::frameModified()` (body not under
`src/`) — performs one notification pass: every observer currently in
`observers_` receives exactly one `onFrameModified` call.  The pass is
recorded in the log. -/
def frameModified (f : FrameS) : FrameS :=
  { f with log := f.observers_ :: f.log }

/-- `Frame::setTranslation(translation)`: `t_ = translation;
frameModified();`. -/
def setTranslation (f : FrameS) (t : Vec3) : FrameS :=
  frameModified { f with t_ := t }

/-- `Frame::setRotation(rotation)`: `q_ = rotation; frameModified();`. -/
def setRotation (f : FrameS) (q : Quat) : FrameS :=
  frameModified { f with q_ := q }

/-- `Frame::setConstraint(constraint)`: `constraint_ = constraint;`. -/
def setConstraint (f : FrameS) (c : Option (Vec3 → Vec3)) : FrameS :=
  { f with constraint_ := c }

/-- `Frame::addObserver(obs)`: `observers_.insert(obs);` on a `std::set`,
so a duplicate insertion leaves the set unchanged. -/
def addObserver (f : FrameS) (o : Nat) : FrameS :=
  { f with observers_ := insert o f.observers_ }

/-- `Frame::removeObserver(obs)`: `observers_.erase(obs);` on a
`std::set`, a no-op when `obs` is not a member. -/
def removeObserver (f : FrameS) (o : Nat) : FrameS :=
  { f with observers_ := f.observers_.erase o }

/-- The constraint filter: identity when no constraint is attached. -/
def applyConstraint : Option (Vec3 → Vec3) → Vec3 → Vec3
  | none, d => d
  | some c, d => c d

/-- Modelled from the spec: `Frame::translate(vec3 &t)` (body not under
`src/`) — the proposed delta is filtered through the constraint (if
any), the filtered delta is added to the local translation, one
notification pass runs, and the filtered delta is written back to the
caller (returned as the second component). -/
def translate (f : FrameS) (d : Vec3) : FrameS × Vec3 :=
  let fd := applyConstraint f.constraint_ d
  (frameModified { f with t_ := f.t_ + fd }, fd)

/-- Modelled from the spec: `Frame::setTranslationWithConstraint
(vec3 &translation)` (body not under `src/`) — the delta from the current
translation to the requested one is filtered through the constraint, the
filtered delta is applied, and the resulting translation is written back
to the caller (returned as the second component). -/
def setTranslationWithConstraint (f : FrameS) (t : Vec3) : FrameS × Vec3 :=
  let fd := applyConstraint f.constraint_ (t - f.t_)
  let f2 := frameModified { f with t_ := f.t_ + fd }
  (f2, f2.t_)

/-- Modelled from the spec: the `Frame(position, orientation)` constructor
(body not under `src/`) — a parentless, constraint-free frame whose world
position and orientation are the given ones (local equals world when the
reference frame is `NULL`). -/
def frameMk (p : Vec3) (o : Quat) : FrameS :=
  { t_ := p, q_ := o, referenceFrame_ := none, constraint_ := none,
    observers_ := ∅, log := [] }

/-- `Frame::worldInverse()`:
`Frame(-(orientation().inverse_rotate(position())), orientation().inverse())`,
evaluated on the frame's reference chain. -/
def worldInverse (c : FrameChain) : FrameS :=
  frameMk (-(inverse_rotate (orientation c) (position c)))
    (qinv (orientation c))

/-- The local data of a stateful frame, as used in a chain. -/
def dataOf (f : FrameS) : FrameData := ⟨f.t_, f.q_⟩

/-- A heap of frames addressed by identifiers; `referenceFrame_` fields
point into it.  This models the pointer graph of `Frame` objects. -/
def World := Nat → FrameS

/-- Modelled from the spec:
`Frame::settingAsReferenceFrameWillCreateALoop(frame)` (body not under
`src/`) — walks `frame`'s own reference chain and returns `true` iff the
receiving frame `self` appears in it (including `frame == self`); a
`NULL` candidate gives `false`.  `fuel` bounds the walk; any value at
least the candidate's chain length gives the source behaviour. -/
def settingAsReferenceFrameWillCreateALoop :
    Nat → World → Nat → Option Nat → Bool
  | _, _, _, none => false
  | 0, _, _, some _ => false
  | Nat.succ n, w, self, some c =>
    if c = self then true
    else settingAsReferenceFrameWillCreateALoop n w self (w c).referenceFrame_

/-- The identifiers of the frames on `c`'s reference chain, starting at
`c` itself, walked with the given fuel. -/
def chainIds : Nat → World → Nat → List Nat
  | 0, _, _ => []
  | Nat.succ n, w, c =>
    c :: (match (w c).referenceFrame_ with
          | none => []
          | some r => chainIds n w r)

/-- Modelled from the spec: `Frame::setReferenceFrame(refFrame)` (body
not under `src/`) — if the assignment would create a loop it is a silent
no-op (no state change, no notification); otherwise the reference frame
is set and one notification pass runs. -/
def setReferenceFrame (fuel : Nat) (w : World) (i : Nat) (r : Option Nat) :
    World :=
  if settingAsReferenceFrameWillCreateALoop fuel w i r then w
  else fun j =>
    if j = i then frameModified { w i with referenceFrame_ := r } else w j

/-- The reference chain of frame `i` in world `w`, walked with the given
fuel, as a `FrameChain`. -/
def chainOf : Nat → World → Nat → FrameChain
  | 0, _, _ => []
  | Nat.succ n, w, i =>
    dataOf (w i) :: (match (w i).referenceFrame_ with
                     | none => []
                     | some j => chainOf n w j)

/-- `Frame::position()` of frame `i` in world `w`: the world position
derived from its reference chain. -/
def positionW (fuel : Nat) (w : World) (i : Nat) : Vec3 :=
  position (chainOf fuel w i)

/-- `setTranslation` applied to the frame `i` of a world. -/
def setTranslationW (w : World) (i : Nat) (t : Vec3) : World :=
  fun j => if j = i then setTranslation (w j) t else w j

/-- Example frame A: world origin, identity rotation, no reference frame. -/
def frameA : FrameS := frameMk ⟨0, 0, 0⟩ qone

/-- Example frame B: local translation `(1,0,0)`, identity rotation, with
frame `0` (frame A) as its reference frame. -/
def frameB : FrameS :=
  { frameMk ⟨1, 0, 0⟩ qone with referenceFrame_ := some 0 }

/-- Example world: frame `0` is `frameA`, frame `1` is `frameB` (so B's
reference frame is A), and every other identifier also maps to A. -/
def worldAB : World := fun n => if n = 1 then frameB else frameA

/-- Example reference chain of depth 3 with non-trivial rotations. -/
def chainEx : FrameChain :=
  [⟨⟨1, 2, 3⟩, ⟨1, 1, 0, 0⟩⟩, ⟨⟨4, 5, 6⟩, ⟨2, 0, 1, 0⟩⟩, ⟨⟨0, 1, 0⟩, ⟨1, 0, 0, 3⟩⟩]

/-- Example reference chain of depth 1. -/
def otherEx : FrameChain := [⟨⟨7, 0, 1⟩, ⟨0, 1, 1, 1⟩⟩]

/-- Example frame data with a non-unit rotation quaternion. -/
def fdEx : FrameData := ⟨⟨1, 1, 1⟩, ⟨3, 4, 0, 0⟩⟩

/-- Example point. -/
def ptEx : Vec3 := ⟨2, -1, 5⟩

/-- Example constraint capability that zeroes the x component of any
proposed translation delta (a one-axis "forbid" constraint). -/
def zeroXConstraint : Vec3 → Vec3 := fun v => ⟨0, v.y, v.z⟩

end Frame

theorem vsmul_def (a : ℚ) (v : Vec3) : a • v = ⟨a * v.x, a * v.y, a * v.z⟩ := rfl

theorem vsmul_vsmul (a b : ℚ) (v : Vec3) : a • (b • v) = (a * b) • v := by
  cases v
  simp only [vsmul_def]
  congr 1 <;> ring

theorem one_vsmul (v : Vec3) : (1 : ℚ) • v = v := by
  cases v
  simp only [vsmul_def]
  congr 1 <;> ring

theorem vecNormSq_vsmul (a : ℚ) (v : Vec3) :
    vecNormSq (a • v) = a * a * vecNormSq v := by
  cases v
  simp only [vsmul_def, vecNormSq]
  ring

theorem rotate_eq_smul_raw (q : Quat) (v : Vec3) :
    rotate q v = (qnormSq q)⁻¹ • rotateRaw q v := rfl

theorem inverse_rotate_eq_smul_raw (q : Quat) (v : Vec3) :
    inverse_rotate q v = (qnormSq q)⁻¹ • invRotateRaw q v := rfl

theorem rotateRaw_vsmul (q : Quat) (a : ℚ) (v : Vec3) :
    rotateRaw q (a • v) = a • rotateRaw q v := by
  cases q; cases v
  simp only [rotateRaw, qmul, qconj, pureQ, vecPart, vsmul_def]
  congr 1 <;> ring

theorem invRotateRaw_vsmul (q : Quat) (a : ℚ) (v : Vec3) :
    invRotateRaw q (a • v) = a • invRotateRaw q v := by
  cases q; cases v
  simp only [invRotateRaw, qmul, qconj, pureQ, vecPart, vsmul_def]
  congr 1 <;> ring

theorem rotateRaw_invRotateRaw (q : Quat) (v : Vec3) :
    rotateRaw q (invRotateRaw q v) = (qnormSq q * qnormSq q) • v := by
  cases q; cases v
  simp only [rotateRaw, invRotateRaw, qmul, qconj, pureQ, vecPart, qnormSq,
    vsmul_def]
  congr 1 <;> ring

theorem invRotateRaw_rotateRaw (q : Quat) (v : Vec3) :
    invRotateRaw q (rotateRaw q v) = (qnormSq q * qnormSq q) • v := by
  cases q; cases v
  simp only [rotateRaw, invRotateRaw, qmul, qconj, pureQ, vecPart, qnormSq,
    vsmul_def]
  congr 1 <;> ring

theorem vecNormSq_rotateRaw (q : Quat) (v : Vec3) :
    vecNormSq (rotateRaw q v) = qnormSq q * qnormSq q * vecNormSq v := by
  cases q; cases v
  simp only [rotateRaw, qmul, qconj, pureQ, vecPart, qnormSq, vecNormSq]
  ring

theorem rotate_inverse_rotate (q : Quat) (h : qnormSq q ≠ 0) (v : Vec3) :
    rotate q (inverse_rotate q v) = v := by
  rw [rotate_eq_smul_raw, inverse_rotate_eq_smul_raw, rotateRaw_vsmul,
    rotateRaw_invRotateRaw, vsmul_vsmul, vsmul_vsmul]
  have hone : (qnormSq q)⁻¹ * (qnormSq q)⁻¹ * (qnormSq q * qnormSq q) = 1 := by
    field_simp
  rw [hone, one_vsmul]

theorem inverse_rotate_rotate (q : Quat) (h : qnormSq q ≠ 0) (v : Vec3) :
    inverse_rotate q (rotate q v) = v := by
  rw [rotate_eq_smul_raw, inverse_rotate_eq_smul_raw, invRotateRaw_vsmul,
    invRotateRaw_rotateRaw, vsmul_vsmul, vsmul_vsmul]
  have hone : (qnormSq q)⁻¹ * (qnormSq q)⁻¹ * (qnormSq q * qnormSq q) = 1 := by
    field_simp
  rw [hone, one_vsmul]

theorem vecNormSq_rotate (q : Quat) (h : qnormSq q ≠ 0) (v : Vec3) :
    vecNormSq (rotate q v) = vecNormSq v := by
  rw [rotate_eq_smul_raw, vecNormSq_vsmul, vecNormSq_rotateRaw]
  field_simp

theorem vecNormSq_inverse_rotate (q : Quat) (h : qnormSq q ≠ 0) (v : Vec3) :
    vecNormSq (inverse_rotate q v) = vecNormSq v := by
  have h2 : rotate q (inverse_rotate q v) = v := rotate_inverse_rotate q h v
  have h3 := vecNormSq_rotate q h (inverse_rotate q v)
  rw [h2] at h3
  exact h3.symm

theorem vadd_def (a b : Vec3) : a + b = ⟨a.x + b.x, a.y + b.y, a.z + b.z⟩ := rfl

theorem vsub_def (a b : Vec3) : a - b = ⟨a.x - b.x, a.y - b.y, a.z - b.z⟩ := rfl

theorem vzero_def : (0 : Vec3) = ⟨0, 0, 0⟩ := rfl

theorem vsub_vadd_cancel (a b : Vec3) : a - b + b = a := by
  cases a; cases b
  simp only [vadd_def, vsub_def]
  congr 1 <;> ring

theorem vadd_vsub_cancel (a b : Vec3) : a + b - b = a := by
  cases a; cases b
  simp only [vadd_def, vsub_def]
  congr 1 <;> ring

theorem vzero_add (a : Vec3) : (0 : Vec3) + a = a := by
  cases a
  simp only [vzero_def, vadd_def]
  congr 1 <;> ring

theorem vadd_vzero (a : Vec3) : a + (0 : Vec3) = a := by
  cases a
  simp only [vzero_def, vadd_def]
  congr 1 <;> ring

theorem qmul_qone_left (q : Quat) : qmul qone q = q := by
  cases q
  simp only [qmul, qone]
  congr 1 <;> ring

theorem rotate_zero (q : Quat) : rotate q (0 : Vec3) = 0 := by
  cases q
  simp only [vzero_def, rotate, rotateRaw, pureQ, qmul, qconj, vecPart, vsmul_def]
  congr 1 <;> ring

namespace Frame

theorem coordinatesOf_cons (f : FrameData) (rest : FrameChain) (src : Vec3) :
    coordinatesOf (f :: rest) src = localCoordinatesOf f (coordinatesOf rest src) := rfl

theorem inverseCoordinatesOf_cons (f : FrameData) (rest : FrameChain) (src : Vec3) :
    inverseCoordinatesOf (f :: rest) src
      = inverseCoordinatesOf rest (localInverseCoordinatesOf f src) := rfl

theorem transformOf_cons (f : FrameData) (rest : FrameChain) (src : Vec3) :
    transformOf (f :: rest) src = localTransformOf f (transformOf rest src) := rfl

theorem inverseTransformOf_cons (f : FrameData) (rest : FrameChain) (src : Vec3) :
    inverseTransformOf (f :: rest) src
      = inverseTransformOf rest (localInverseTransformOf f src) := rfl

theorem orientation_cons (f : FrameData) (rest : FrameChain) :
    orientation (f :: rest) = qmul (orientation rest) f.q := rfl

theorem position_def (c : FrameChain) : position c = inverseCoordinatesOf c 0 := rfl

theorem localInverseCoordinatesOf_localCoordinatesOf (f : FrameData)
    (h : qnormSq f.q ≠ 0) (p : Vec3) :
    localInverseCoordinatesOf f (localCoordinatesOf f p) = p := by
  unfold localInverseCoordinatesOf localCoordinatesOf
  rw [rotate_inverse_rotate f.q h, vsub_vadd_cancel]

theorem localCoordinatesOf_localInverseCoordinatesOf (f : FrameData)
    (h : qnormSq f.q ≠ 0) (p : Vec3) :
    localCoordinatesOf f (localInverseCoordinatesOf f p) = p := by
  unfold localInverseCoordinatesOf localCoordinatesOf
  rw [vadd_vsub_cancel, inverse_rotate_rotate f.q h]

theorem inverseCoordinatesOf_coordinatesOf (c : FrameChain) (hc : chainOk c)
    (p : Vec3) : inverseCoordinatesOf c (coordinatesOf c p) = p := by
  induction c generalizing p with
  | nil => rfl
  | cons f rest ih =>
    have hf : qnormSq f.q ≠ 0 := hc f (List.mem_cons_self f rest)
    have hrest : chainOk rest := fun g hg => hc g (List.mem_cons_of_mem f hg)
    rw [coordinatesOf_cons, inverseCoordinatesOf_cons]
    rw [localInverseCoordinatesOf_localCoordinatesOf f hf, ih hrest]

theorem coordinatesOf_inverseCoordinatesOf (c : FrameChain) (hc : chainOk c)
    (p : Vec3) : coordinatesOf c (inverseCoordinatesOf c p) = p := by
  induction c generalizing p with
  | nil => rfl
  | cons f rest ih =>
    have hf : qnormSq f.q ≠ 0 := hc f (List.mem_cons_self f rest)
    have hrest : chainOk rest := fun g hg => hc g (List.mem_cons_of_mem f hg)
    rw [coordinatesOf_cons, inverseCoordinatesOf_cons]
    rw [ih hrest, localCoordinatesOf_localInverseCoordinatesOf f hf]

theorem inverseTransformOf_transformOf (c : FrameChain) (hc : chainOk c)
    (v : Vec3) : inverseTransformOf c (transformOf c v) = v := by
  induction c generalizing v with
  | nil => rfl
  | cons f rest ih =>
    have hf : qnormSq f.q ≠ 0 := hc f (List.mem_cons_self f rest)
    have hrest : chainOk rest := fun g hg => hc g (List.mem_cons_of_mem f hg)
    rw [transformOf_cons, inverseTransformOf_cons]
    unfold localTransformOf localInverseTransformOf
    rw [rotate_inverse_rotate f.q hf, ih hrest]

theorem vecNormSq_transformOf (c : FrameChain) (hc : chainOk c) (v : Vec3) :
    vecNormSq (transformOf c v) = vecNormSq v := by
  induction c generalizing v with
  | nil => rfl
  | cons f rest ih =>
    have hf : qnormSq f.q ≠ 0 := hc f (List.mem_cons_self f rest)
    have hrest : chainOk rest := fun g hg => hc g (List.mem_cons_of_mem f hg)
    rw [transformOf_cons]
    unfold localTransformOf
    rw [vecNormSq_inverse_rotate f.q hf, ih hrest]

theorem transformOf_map_translation (c : FrameChain) (t0 : Vec3) (v : Vec3) :
    transformOf (List.map (fun f => FrameData.mk t0 f.q) c) v = transformOf c v := by
  induction c generalizing v with
  | nil => rfl
  | cons f rest ih =>
    rw [List.map_cons, transformOf_cons, transformOf_cons]
    unfold localTransformOf
    rw [ih]

theorem position_single (f : FrameData) : position [f] = f.t := by
  rw [position_def, inverseCoordinatesOf_cons]
  show localInverseCoordinatesOf f 0 = f.t
  unfold localInverseCoordinatesOf
  rw [rotate_zero, vzero_add]

theorem orientation_single (f : FrameData) : orientation [f] = f.q := by
  rw [orientation_cons]
  exact qmul_qone_left f.q

end Frame

namespace Frame

theorem loop_none (fuel : Nat) (w : World) (self : Nat) :
    settingAsReferenceFrameWillCreateALoop fuel w self none = false := by
  cases fuel <;> rfl

theorem loop_zero (w : World) (self c : Nat) :
    settingAsReferenceFrameWillCreateALoop 0 w self (some c) = false := rfl

theorem loop_succ (n : Nat) (w : World) (self c : Nat) :
    settingAsReferenceFrameWillCreateALoop (n + 1) w self (some c)
      = if c = self then true
        else settingAsReferenceFrameWillCreateALoop n w self (w c).referenceFrame_ := rfl

theorem chainIds_zero (w : World) (c : Nat) : chainIds 0 w c = [] := rfl

theorem chainIds_succ (n : Nat) (w : World) (c : Nat) :
    chainIds (n + 1) w c
      = c :: (match (w c).referenceFrame_ with
              | none => []
              | some r => chainIds n w r) := rfl

/-- C5: `settingAsReferenceFrameWillCreateALoop(candidate)` returns `true`
iff the receiving frame appears in `candidate`'s own reference-frame chain
(walking `candidate`, its reference frame, and so on), including the case
`candidate == this`; a `NULL` candidate yields `false`. -/
theorem loop_check_iff_mem_chain (fuel : Nat) (w : World) (self c : Nat) :
    (settingAsReferenceFrameWillCreateALoop fuel w self (some c) = true
      ↔ self ∈ chainIds fuel w c)
    ∧ settingAsReferenceFrameWillCreateALoop fuel w self none = false := by
  constructor
  · induction fuel generalizing c with
    | zero =>
      rw [loop_zero, chainIds_zero]
      simp
    | succ n ih =>
      rw [loop_succ, chainIds_succ]
      by_cases hcs : c = self
      · subst hcs
        rw [if_pos rfl]
        simp
      · rw [if_neg hcs]
        cases h : (w c).referenceFrame_ with
        | none =>
          rw [loop_none]
          show (false = true) ↔ self ∈ [c]
          simp only [Bool.false_eq_true, false_iff, List.mem_singleton]
          exact fun h1 => hcs h1.symm
        | some r =>
          show settingAsReferenceFrameWillCreateALoop n w self (some r) = true
            ↔ self ∈ c :: chainIds n w r
          rw [ih r]
          refine ⟨fun hm => List.mem_cons_of_mem c hm, fun hm => ?_⟩
          rcases List.mem_cons.mp hm with h1 | h1
          · exact absurd h1.symm hcs
          · exact h1
  · exact loop_none fuel w self

/-- C4: when `setReferenceFrame` would create a loop
(`settingAsReferenceFrameWillCreateALoop` is `true`), the call is a silent
no-op: every frame of the world — its reference frame, translation,
rotation, observers and notification log — is left exactly as it was. -/
theorem setReferenceFrame_loop_silent_noop (fuel : Nat) (w : World) (i : Nat)
    (r : Option Nat)
    (h : settingAsReferenceFrameWillCreateALoop fuel w i r = true) (j : Nat) :
    setReferenceFrame fuel w i r j = w j := by
  simp only [setReferenceFrame, h]
  rfl

/-- Witness for C4: with B (frame 1) already referencing A (frame 0),
`A.setReferenceFrame(B)` is detected as a loop and leaves both frames'
state — in particular both `referenceFrame()` values — unchanged. -/
theorem setReferenceFrame_loop_silent_noop_witness :
    settingAsReferenceFrameWillCreateALoop 2 worldAB 0 (some 1) = true
    ∧ setReferenceFrame 2 worldAB 0 (some 1) 0 = worldAB 0
    ∧ setReferenceFrame 2 worldAB 0 (some 1) 1 = worldAB 1 :=
  ⟨by decide,
   setReferenceFrame_loop_silent_noop 2 worldAB 0 (some 1) (by decide) 0,
   setReferenceFrame_loop_silent_noop 2 worldAB 0 (some 1) (by decide) 1⟩

/-- C2: composing each coordinate conversion with its named inverse
reproduces the input, for any reference-chain depth and any `other` frame
(including the world, the empty chain): `inverseCoordinatesOf ∘
coordinatesOf`, `coordinatesOf ∘ inverseCoordinatesOf`,
`localInverseCoordinatesOf ∘ localCoordinatesOf`, `localCoordinatesOf ∘
localInverseCoordinatesOf` and `coordinatesOfIn ∘ coordinatesOfFrom` are
all the identity (exactly, in the rational model). -/
theorem coordinatesOf_roundTrip (c g : FrameChain) (f : FrameData)
    (p v : Vec3) (hc : chainOk c) (hg : chainOk g)
    (hf : qnormSq f.q ≠ 0) :
    inverseCoordinatesOf c (coordinatesOf c p) = p
    ∧ coordinatesOf c (inverseCoordinatesOf c p) = p
    ∧ localInverseCoordinatesOf f (localCoordinatesOf f v) = v
    ∧ localCoordinatesOf f (localInverseCoordinatesOf f v) = v
    ∧ coordinatesOfIn c g (coordinatesOfFrom c g p) = p :=
  ⟨inverseCoordinatesOf_coordinatesOf c hc p,
   coordinatesOf_inverseCoordinatesOf c hc p,
   localInverseCoordinatesOf_localCoordinatesOf f hf v,
   localCoordinatesOf_localInverseCoordinatesOf f hf v,
   by
     unfold coordinatesOfIn coordinatesOfFrom
     rw [inverseCoordinatesOf_coordinatesOf c hc,
       coordinatesOf_inverseCoordinatesOf g hg]⟩

/-- Witness for C2 at a depth-3 chain, a depth-1 `other` chain and a
concrete point. -/
theorem coordinatesOf_roundTrip_witness :
    chainOk chainEx ∧ chainOk otherEx ∧ qnormSq fdEx.q ≠ 0
    ∧ (inverseCoordinatesOf chainEx (coordinatesOf chainEx ptEx) = ptEx
      ∧ coordinatesOf chainEx (inverseCoordinatesOf chainEx ptEx) = ptEx
      ∧ localInverseCoordinatesOf fdEx (localCoordinatesOf fdEx ptEx) = ptEx
      ∧ localCoordinatesOf fdEx (localInverseCoordinatesOf fdEx ptEx) = ptEx
      ∧ coordinatesOfIn chainEx otherEx
          (coordinatesOfFrom chainEx otherEx ptEx) = ptEx) :=
  ⟨of_decide_eq_true (by with_unfolding_all rfl),
   of_decide_eq_true (by with_unfolding_all rfl),
   of_decide_eq_true (by with_unfolding_all rfl),
   coordinatesOf_roundTrip chainEx otherEx fdEx ptEx ptEx
     (of_decide_eq_true (by with_unfolding_all rfl))
     (of_decide_eq_true (by with_unfolding_all rfl))
     (of_decide_eq_true (by with_unfolding_all rfl))⟩

/-- C3: `transformOf` preserves the Euclidean length of the source vector,
`inverseTransformOf ∘ transformOf` is the identity, and `transformOf`
depends only on the rotations of the chain — replacing every translation
by an arbitrary vector leaves its result unchanged. -/
theorem transformOf_length_roundTrip (c : FrameChain) (v t0 : Vec3)
    (hc : chainOk c) :
    Real.sqrt ((vecNormSq (transformOf c v) : ℚ) : ℝ)
      = Real.sqrt ((vecNormSq v : ℚ) : ℝ)
    ∧ inverseTransformOf c (transformOf c v) = v
    ∧ transformOf (List.map (fun f => FrameData.mk t0 f.q) c) v
        = transformOf c v := by
  refine ⟨?_, inverseTransformOf_transformOf c hc v,
    transformOf_map_translation c t0 v⟩
  rw [vecNormSq_transformOf c hc v]

/-- Witness for C3 at a depth-3 chain and a concrete vector. -/
theorem transformOf_length_roundTrip_witness :
    chainOk chainEx
    ∧ (Real.sqrt ((vecNormSq (transformOf chainEx ptEx) : ℚ) : ℝ)
        = Real.sqrt ((vecNormSq ptEx : ℚ) : ℝ)
      ∧ inverseTransformOf chainEx (transformOf chainEx ptEx) = ptEx
      ∧ transformOf
          (List.map (fun f => FrameData.mk ⟨9, 9, 9⟩ f.q) chainEx) ptEx
          = transformOf chainEx ptEx) :=
  ⟨of_decide_eq_true (by with_unfolding_all rfl),
   transformOf_length_roundTrip chainEx ptEx ⟨9, 9, 9⟩
     (of_decide_eq_true (by with_unfolding_all rfl))⟩

/-- C6: with frame A at the world origin (identity rotation) and frame B
referencing A with local translation `(1,0,0)`, `B.position()` is
`(1,0,0)`; after `A.setTranslation((2,0,0))`, `B.position()` is `(3,0,0)`
— recomputed by composing up the chain — while `B.translation()` is still
`(1,0,0)`. -/
theorem position_hierarchy_scenario :
    positionW 1 worldAB 0 = ⟨0, 0, 0⟩
    ∧ positionW 2 worldAB 1 = ⟨1, 0, 0⟩
    ∧ translation (worldAB 1) = ⟨1, 0, 0⟩
    ∧ positionW 2 (setTranslationW worldAB 0 ⟨2, 0, 0⟩) 1 = ⟨3, 0, 0⟩
    ∧ translation (setTranslationW worldAB 0 ⟨2, 0, 0⟩ 1) = ⟨1, 0, 0⟩ := by
  refine ⟨?_, ?_, ?_, ?_, ?_⟩ <;> with_unfolding_all rfl

/-- C7: `setTranslation` unconditionally overwrites the local translation
— whatever the attached constraint or reference frame — and runs exactly
one notification pass over the current observer set; `setRotation` does
the same for the local rotation. -/
theorem setTranslation_setRotation_overwrite_notify (f : FrameS) (t : Vec3)
    (q : Quat) :
    translation (setTranslation f t) = t
    ∧ (setTranslation f t).log = f.observers_ :: f.log
    ∧ rotation (setTranslation f t) = rotation f
    ∧ referenceFrame (setTranslation f t) = referenceFrame f
    ∧ (setTranslation f t).observers_ = f.observers_
    ∧ (setTranslation f t).constraint_ = f.constraint_
    ∧ rotation (setRotation f q) = q
    ∧ (setRotation f q).log = f.observers_ :: f.log
    ∧ translation (setRotation f q) = translation f
    ∧ referenceFrame (setRotation f q) = referenceFrame f :=
  ⟨rfl, rfl, rfl, rfl, rfl, rfl, rfl, rfl, rfl, rfl⟩

/-- Counterexample to C1: `setRotation` stores its argument without any
normalization, so a non-unit quaternion input (norm-squared `4`) is
stored as-is, and a zero quaternion input leaves a stored rotation of
norm zero — `rotation()` does not always return a unit quaternion. -/
theorem setRotation_unit_invariant_cex :
    rotation (setRotation frameA ⟨2, 0, 0, 0⟩) = ⟨2, 0, 0, 0⟩
    ∧ qnormSq (rotation (setRotation frameA ⟨2, 0, 0, 0⟩)) ≠ 1
    ∧ qnormSq (rotation (setRotation frameA ⟨0, 0, 0, 0⟩)) = 0 :=
  ⟨rfl, of_decide_eq_true (by with_unfolding_all rfl),
   by with_unfolding_all rfl⟩

/-- C1 (amended): `setRotation` stores the input quaternion exactly as
given — no normalization and no rejection — so `rotation()` returns a
quaternion of exactly the norm that was passed in; the unit-quaternion
invariant holds only when callers pass unit quaternions. -/
theorem setRotation_stores_input (f : FrameS) (q : Quat) :
    rotation (setRotation f q) = q
    ∧ qnormSq (rotation (setRotation f q)) = qnormSq q :=
  ⟨rfl, rfl⟩

/-- C8: `worldInverse()` returns a parentless, constraint-free frame whose
world orientation is the inverse of the original frame's world
`orientation()` and whose world position is the negated, inverse-rotated
image of the original world `position()`. -/
theorem worldInverse_spec (c : FrameChain) :
    orientation [dataOf (worldInverse c)] = qinv (orientation c)
    ∧ position [dataOf (worldInverse c)]
        = -(inverse_rotate (orientation c) (position c))
    ∧ (worldInverse c).referenceFrame_ = none
    ∧ (worldInverse c).constraint_ = none := by
  refine ⟨?_, ?_, rfl, rfl⟩
  · rw [orientation_single]
    rfl
  · rw [position_single]
    rfl

/-- C9: constrained translation mutators filter the proposed delta through
the attached constraint, apply the filtered delta to the local
translation, and write the filtered delta back to the caller; without a
constraint the filtering is the identity.  In particular a constraint
zeroing the x axis makes a pure-x `translate` a no-op on `translation()`
with a zero write-back. -/
theorem translate_constraint_filtering (f : FrameS) (d t : Vec3) :
    (translate f d).1.t_ = f.t_ + applyConstraint f.constraint_ d
    ∧ (translate f d).2 = applyConstraint f.constraint_ d
    ∧ (translate f d).1.log = f.observers_ :: f.log
    ∧ applyConstraint none d = d
    ∧ (setTranslationWithConstraint f t).1.t_
        = f.t_ + applyConstraint f.constraint_ (t - f.t_)
    ∧ (setTranslationWithConstraint f t).2
        = (setTranslationWithConstraint f t).1.t_
    ∧ (translate (setConstraint f (some zeroXConstraint)) ⟨d.x, 0, 0⟩).1.t_
        = f.t_
    ∧ (translate (setConstraint f (some zeroXConstraint)) ⟨d.x, 0, 0⟩).2
        = (0 : Vec3) := by
  refine ⟨rfl, rfl, rfl, rfl, rfl, rfl, ?_, rfl⟩
  show f.t_ + (0 : Vec3) = f.t_
  exact vadd_vzero f.t_

/-- C10: `setConstraint`, `addObserver` and `removeObserver` change only
the constraint pointer / observer set: translation, rotation, reference
frame and the notification log are untouched; adding an observer twice is
the same as adding it once, and removing an absent observer is a no-op. -/
theorem setConstraint_observer_effects (f : FrameS)
    (c : Option (Vec3 → Vec3)) (o : Nat) :
    ((setConstraint f c).t_ = f.t_
      ∧ (setConstraint f c).q_ = f.q_
      ∧ (setConstraint f c).referenceFrame_ = f.referenceFrame_
      ∧ (setConstraint f c).observers_ = f.observers_
      ∧ (setConstraint f c).log = f.log
      ∧ (setConstraint f c).constraint_ = c
      ∧ (addObserver f o).t_ = f.t_
      ∧ (addObserver f o).q_ = f.q_
      ∧ (addObserver f o).referenceFrame_ = f.referenceFrame_
      ∧ (addObserver f o).constraint_ = f.constraint_
      ∧ (addObserver f o).log = f.log
      ∧ (removeObserver f o).t_ = f.t_
      ∧ (removeObserver f o).q_ = f.q_
      ∧ (removeObserver f o).referenceFrame_ = f.referenceFrame_
      ∧ (removeObserver f o).constraint_ = f.constraint_
      ∧ (removeObserver f o).log = f.log
      ∧ addObserver (addObserver f o) o = addObserver f o)
    ∧ (o ∉ f.observers_ → removeObserver f o = f) := by
  constructor
  · refine ⟨rfl, rfl, rfl, rfl, rfl, rfl, rfl, rfl, rfl, rfl, rfl, rfl, rfl,
      rfl, rfl, rfl, ?_⟩
    unfold addObserver
    simp only [Finset.insert_idem]
  · intro ho
    unfold removeObserver
    rw [Finset.erase_eq_of_not_mem ho]

/-- Witness for C10: removing the observer `0` from a frame with an empty
observer set leaves the frame exactly as it was. -/
theorem setConstraint_observer_effects_witness :
    (0 ∉ frameA.observers_) ∧ removeObserver frameA 0 = frameA :=
  ⟨by decide, (setConstraint_observer_effects frameA none 0).2 (by decide)⟩

end Frame
